import Mathlib

/-!
Shallow embedding of the rate-limited, fault-tolerant scraping orchestrator of
`src/models/job_scraper.py` (module of classes `RateLimiter`, `ExponentialBackoff`,
`JobScraper`).

Modelling conventions:
* Python `float` durations and timestamps are embedded as `ℚ`.
* `datetime` instants are rationals (seconds on an absolute axis); `timedelta`
  arithmetic becomes plain subtraction.
* Randomness (`random.uniform`) is embedded as an oracle argument: the drawn
  value is an explicit parameter, constrained in theorems by the interval the
  source draws from.
* `asyncio` suspension points (`await asyncio.sleep`) do not move data, so the
  pure value computed by each function is embedded directly; where the *timing*
  behaviour itself is the subject of a claim (rate limiting, batch pacing), the
  sequence of sleeps/grants is reified as data (a trace or event list).
* Python exceptions become `Except`; `None` becomes `Option.none`.
-/

namespace Scraper

/-- The `JobSite` enumeration values (class `JobSite`): the supported platforms. -/
def supportedSites : List String :=
  ["indeed", "linkedin", "zip_recruiter", "glassdoor", "google"]

/-- Dataclass `RateLimitConfig`: rate limiting configuration for a job site.
Field defaults are the dataclass defaults. -/
structure RateLimitConfig where
  requests_per_minute : Nat := 10
  requests_per_hour : Nat := 100
  min_delay_seconds : ℚ := 1
  max_delay_seconds : ℚ := 5
  deriving DecidableEq, Repr

/-- Dataclass `RequestTracker`: per-platform request history used by the rate
limiter.  Timestamps are instants (seconds, as `ℚ`). -/
structure RequestTracker where
  minute_requests : List ℚ := []
  hour_requests : List ℚ := []
  last_request_time : Option ℚ := none
  deriving DecidableEq, Repr

/-- Constructor `RateLimiter.__init__`: the per-platform configuration table, together with
the `dict.get(platform, RateLimitConfig())` lookup performed by `acquire`
(line `config = self.configs.get(platform, RateLimitConfig())`).  Unknown
platforms receive the default `RateLimitConfig()`. -/
def configFor (platform : String) : RateLimitConfig :=
  if platform = "indeed" then
    { requests_per_minute := 10, requests_per_hour := 100, min_delay_seconds := 2 }
  else if platform = "linkedin" then
    { requests_per_minute := 5, requests_per_hour := 50, min_delay_seconds := 3 }
  else if platform = "zip_recruiter" then
    { requests_per_minute := 8, requests_per_hour := 80, min_delay_seconds := 2 }
  else if platform = "glassdoor" then
    { requests_per_minute := 6, requests_per_hour := 60, min_delay_seconds := 5/2 }
  else if platform = "google" then
    { requests_per_minute := 10, requests_per_hour := 100, min_delay_seconds := 3/2 }
  else
    {}

/-- Method `RateLimiter._clean_old_requests`: drop timestamps at or before
`now - window_seconds` (the source keeps `req > cutoff`). -/
def cleanOldRequests (requests : List ℚ) (window_seconds : ℚ) (now : ℚ) : List ℚ :=
  requests.filter (fun req => now - window_seconds < req)

/-- The cleaning step at the top of each `acquire` loop iteration: both windows
pruned at the current instant. -/
def cleanTracker (tr : RequestTracker) (now : ℚ) : RequestTracker :=
  { tr with
    minute_requests := cleanOldRequests tr.minute_requests 60 now
    hour_requests := cleanOldRequests tr.hour_requests 3600 now }

/-- The admission check of `RateLimiter.acquire` (`minute_ok and hour_ok and
delay_ok`), evaluated on an already-cleaned tracker at instant `now`. -/
def admissible (config : RateLimitConfig) (tr : RequestTracker) (now : ℚ) : Bool :=
  let minute_ok := tr.minute_requests.length < config.requests_per_minute
  let hour_ok := tr.hour_requests.length < config.requests_per_hour
  let delay_ok := match tr.last_request_time with
    | none => true
    | some last => decide (config.min_delay_seconds ≤ now - last)
  minute_ok && hour_ok && delay_ok

/-- The grant branch of `RateLimiter.acquire`: append `now` to both windows and
set `last_request_time` (the jitter sleep that follows does not change the
tracker). -/
def recordGrant (tr : RequestTracker) (now : ℚ) : RequestTracker :=
  { minute_requests := tr.minute_requests ++ [now]
    hour_requests := tr.hour_requests ++ [now]
    last_request_time := some now }

/-- Reachable rate-limiter states for one platform.  `Reaches config t tr hist`
says: starting from a fresh `RequestTracker()` the `acquire` loop iterations
(each iteration cleans at the current instant and then either grants or waits)
can leave the tracker in state `tr` at instant `t`, having granted exactly the
requests in `hist` (chronological).  Iterations of concurrent `acquire` calls
for the same platform interleave at `await` boundaries only, and one iteration
(clean, check, record) contains no `await`, so every interleaving is a sequence
of these steps with non-decreasing instants. -/
inductive Reaches (config : RateLimitConfig) : ℚ → RequestTracker → List ℚ → Prop
  | init (t : ℚ) : Reaches config t {} []
  | wait {t tr hist} (t' : ℚ) : Reaches config t tr hist → t ≤ t' →
      admissible config (cleanTracker tr t') t' = false →
      Reaches config t' (cleanTracker tr t') hist
  | grant {t tr hist} (t' : ℚ) : Reaches config t tr hist → t ≤ t' →
      admissible config (cleanTracker tr t') t' = true →
      Reaches config t' (recordGrant (cleanTracker tr t') t') (hist ++ [t'])

/-- Membership of a grant instant in the rolling window `(endInstant - width, endInstant]`. -/
def inWindow (width endInstant g : ℚ) : Bool :=
  decide (endInstant - width < g) && decide (g ≤ endInstant)

/-- Pruning at a later instant subsumes pruning at an earlier one: cleaning the
already-cleaned window again only has the later cutoff matter. -/
theorem cleanOldRequests_clean (l : List ℚ) (w t t' : ℚ) (h : t ≤ t') :
    cleanOldRequests (cleanOldRequests l w t) w t' = cleanOldRequests l w t' := by
  unfold cleanOldRequests
  rw [List.filter_filter]
  apply List.filter_congr
  intro a _
  by_cases ha : t' - w < a
  · have hta : t - w < a := lt_of_le_of_lt (by linarith) ha
    simp [ha, hta]
  · simp [ha]

/-- Counting grants inside a window is bounded by counting those after the
window's start. -/
theorem countP_inWindow_le (hist : List ℚ) (w T c : ℚ) (hc : c ≤ T - w) :
    hist.countP (inWindow w T) ≤ hist.countP (fun g => decide (c < g)) := by
  apply List.countP_mono_left
  intro a _ ha
  simp only [inWindow, Bool.and_eq_true, decide_eq_true_eq] at ha
  simpa using lt_of_le_of_lt hc ha.1

/-- The state invariant of the embedded `RateLimiter.acquire` loop: in every
reachable state the two tracker windows are exactly the recent grants, the
last-request field is the last grant, both rolling-window bounds hold for the
full grant history at every instant, and consecutive grants are spaced by at
least the configured minimum delay. -/
theorem reaches_invariant {config : RateLimitConfig} {t : ℚ} {tr : RequestTracker}
    {hist : List ℚ} (h : Reaches config t tr hist) :
    tr.minute_requests = cleanOldRequests hist 60 t ∧
    tr.hour_requests = cleanOldRequests hist 3600 t ∧
    tr.last_request_time = hist.getLast? ∧
    (∀ T, hist.countP (inWindow 60 T) ≤ config.requests_per_minute) ∧
    (∀ T, hist.countP (inWindow 3600 T) ≤ config.requests_per_hour) ∧
    hist.Chain' (fun a b => a + config.min_delay_seconds ≤ b) := by
  induction h with
  | init t =>
      refine ⟨rfl, rfl, rfl, ?_, ?_, ?_⟩ <;> simp [List.Chain']
  | wait t' _ hle _ ih =>
      obtain ⟨hm, hh, hl, hwm, hwh, hch⟩ := ih
      refine ⟨?_, ?_, hl, hwm, hwh, hch⟩
      · simp only [cleanTracker, hm]
        exact cleanOldRequests_clean _ _ _ _ hle
      · simp only [cleanTracker, hh]
        exact cleanOldRequests_clean _ _ _ _ hle
  | grant t' _ hle hadm ih =>
      rename_i t0 tr0 hist0 _
      obtain ⟨hm, hh, hl, hwm, hwh, hch⟩ := ih
      simp only [admissible, cleanTracker] at hadm
      simp only [hm, hh, hl, cleanOldRequests_clean hist0 60 t0 t' hle,
        cleanOldRequests_clean hist0 3600 t0 t' hle] at hadm
      simp only [Bool.and_eq_true] at hadm
      obtain ⟨⟨hminb, hhourb⟩, hdelb⟩ := hadm
      rw [decide_eq_true_eq] at hminb hhourb
      refine ⟨?_, ?_, ?_, ?_, ?_, ?_⟩
      · show cleanOldRequests tr0.minute_requests 60 t' ++ [t'] =
          cleanOldRequests (hist0 ++ [t']) 60 t'
        rw [hm, cleanOldRequests_clean hist0 60 t0 t' hle]
        unfold cleanOldRequests
        rw [List.filter_append]
        have htw : (60 : ℚ) > 0 := by norm_num
        have htw' : t' - 60 < t' := by linarith
        simp [htw']
      · show cleanOldRequests tr0.hour_requests 3600 t' ++ [t'] =
          cleanOldRequests (hist0 ++ [t']) 3600 t'
        rw [hh, cleanOldRequests_clean hist0 3600 t0 t' hle]
        unfold cleanOldRequests
        rw [List.filter_append]
        have htw' : t' - 3600 < t' := by linarith
        simp [htw']
      · show some t' = (hist0 ++ [t']).getLast?
        simp
      · intro T
        rw [List.countP_append]
        by_cases hw : inWindow 60 T t' = true
        · have hw' := hw
          simp only [inWindow, Bool.and_eq_true, decide_eq_true_eq] at hw'
          have h1 := countP_inWindow_le hist0 60 T (t' - 60) (by linarith [hw'.2])
          have h2 : hist0.countP (fun g => decide (t' - 60 < g)) <
              config.requests_per_minute := by
            rw [List.countP_eq_length_filter]
            exact hminb
          have h3 : List.countP (inWindow 60 T) [t'] ≤ 1 := by
            cases h4 : inWindow 60 T t' <;> simp [h4]
          omega
        · rw [Bool.not_eq_true] at hw
          have h0 : List.countP (inWindow 60 T) [t'] = 0 := by simp [hw]
          have := hwm T
          omega
      · intro T
        rw [List.countP_append]
        by_cases hw : inWindow 3600 T t' = true
        · have hw' := hw
          simp only [inWindow, Bool.and_eq_true, decide_eq_true_eq] at hw'
          have h1 := countP_inWindow_le hist0 3600 T (t' - 3600) (by linarith [hw'.2])
          have h2 : hist0.countP (fun g => decide (t' - 3600 < g)) <
              config.requests_per_hour := by
            rw [List.countP_eq_length_filter]
            exact hhourb
          have h3 : List.countP (inWindow 3600 T) [t'] ≤ 1 := by
            cases h4 : inWindow 3600 T t' <;> simp [h4]
          omega
        · rw [Bool.not_eq_true] at hw
          have h0 : List.countP (inWindow 3600 T) [t'] = 0 := by simp [hw]
          have := hwh T
          omega
      · rw [List.chain'_append]
        refine ⟨hch, List.chain'_singleton _, ?_⟩
        intro x hx y hy
        rw [Option.mem_def] at hx hy
        simp only [List.head?_cons, Option.some.injEq] at hy
        subst hy
        simp only [hx] at hdelb
        rw [decide_eq_true_eq] at hdelb
        linarith

/-- C2: for every platform policy `(maxPerMinute = m, maxPerHour = h, minDelay = d)`
and every sequence of grants recorded by `RateLimiter.acquire`, any rolling
60-second window contains at most `m` grants, any rolling 3600-second window
contains at most `h` grants, and consecutive grants are separated by at least
`d`. -/
theorem rate_limit_safety {config : RateLimitConfig} {t : ℚ} {tr : RequestTracker}
    {hist : List ℚ} (h : Reaches config t tr hist) :
    (∀ T, hist.countP (inWindow 60 T) ≤ config.requests_per_minute) ∧
    (∀ T, hist.countP (inWindow 3600 T) ≤ config.requests_per_hour) ∧
    hist.Chain' (fun a b => a + config.min_delay_seconds ≤ b) :=
  ⟨(reaches_invariant h).2.2.2.1, (reaches_invariant h).2.2.2.2.1,
    (reaches_invariant h).2.2.2.2.2⟩

/-- Witness for C2: a concrete two-grant trace on platform `indeed` (grants at
instants 0 and 2, the second admissible because the minimum delay of 2 s has
elapsed) satisfies the window bounds and the spacing bound. -/
theorem rate_limit_safety_witness :
    (List.countP (inWindow 60 2) [(0 : ℚ), 2] ≤ (configFor ("indeed")).requests_per_minute) ∧
    List.Chain' (fun a b => a + (configFor ("indeed")).min_delay_seconds ≤ b) [(0 : ℚ), 2] := by
  have h0 : Reaches (configFor ("indeed")) 0
      (recordGrant (cleanTracker {} 0) 0) ([] ++ [0]) :=
    Reaches.grant 0 (Reaches.init 0) le_rfl
      (by norm_num [admissible, cleanTracker, recordGrant, cleanOldRequests, configFor])
  have h2 : Reaches (configFor ("indeed")) 2
      (recordGrant (cleanTracker (recordGrant (cleanTracker {} 0) 0) 2) 2)
      (([] ++ [0]) ++ [2]) :=
    Reaches.grant 2 h0 (by norm_num)
      (by norm_num [admissible, cleanTracker, recordGrant, cleanOldRequests, configFor])
  have h := rate_limit_safety h2
  exact ⟨h.1 2, h.2.2⟩

/-- The `wait_times` list built by the inadmissible branch of
`RateLimiter.acquire`: one candidate wait per violated constraint (the minute
window, the hour window, the minimum delay), evaluated on the already-cleaned
tracker.  The minute/hour entries use the oldest (head) timestamp of the
corresponding window, exactly as `tracker.minute_requests[0]` does. -/
def wait_times (config : RateLimitConfig) (tr : RequestTracker) (now : ℚ) : List ℚ :=
  (if ¬ tr.minute_requests.length < config.requests_per_minute ∧ tr.minute_requests ≠ []
    then [tr.minute_requests.headI + 60 - now] else []) ++
  (if ¬ tr.hour_requests.length < config.requests_per_hour ∧ tr.hour_requests ≠ []
    then [tr.hour_requests.headI + 3600 - now] else []) ++
  (match tr.last_request_time with
    | none => []
    | some last =>
        if now - last < config.min_delay_seconds
          then [config.min_delay_seconds - (now - last)] else [])

/-- Source line `wait_time = max(wait_times) if wait_times else config.min_delay_seconds`:
the duration the inadmissible branch of `acquire` actually sleeps for. -/
def wait_time (config : RateLimitConfig) (tr : RequestTracker) (now : ℚ) : ℚ :=
  match wait_times config tr now with
  | [] => config.min_delay_seconds
  | x :: xs => xs.foldl max x

/-- The wait duration the spec's words prescribe instead: the *minimum* of the
violated-constraint wait times (written from the spec sentence, to be compared
against the source's `wait_time`). -/
def claimed_min_wait_time (config : RateLimitConfig) (tr : RequestTracker) (now : ℚ) : ℚ :=
  match wait_times config tr now with
  | [] => config.min_delay_seconds
  | x :: xs => xs.foldl min x

/-- The seed of a left max-fold is below the fold. -/
theorem le_foldl_max (xs : List ℚ) (x : ℚ) :
    x ≤ xs.foldl max x ∧ ∀ y ∈ xs, y ≤ xs.foldl max x := by
  induction xs generalizing x with
  | nil => exact ⟨le_rfl, by simp⟩
  | cons a l ih =>
      obtain ⟨h1, h2⟩ := ih (max x a)
      simp only [List.foldl_cons]
      refine ⟨le_trans (le_max_left x a) h1, ?_⟩
      intro y hy
      rcases List.mem_cons.mp hy with h | hy'
      · cases h
        exact le_trans (le_max_right x _) h1
      · exact h2 y hy'

/-- A left max-fold returns its seed or one of the folded elements. -/
theorem foldl_max_mem (xs : List ℚ) (x : ℚ) :
    xs.foldl max x = x ∨ xs.foldl max x ∈ xs := by
  induction xs generalizing x with
  | nil => exact Or.inl rfl
  | cons a l ih =>
      simp only [List.foldl_cons]
      rcases ih (max x a) with h | h
      · rcases max_choice x a with hc | hc
        · exact Or.inl (by rw [h, hc])
        · exact Or.inr (by rw [h, hc]; exact List.mem_cons_self a l)
      · exact Or.inr (List.mem_cons_of_mem _ h)

/-- C5 (counterexample): a reachable `linkedin` state in which both the minute
window (5 grants inside the last minute) and the minimum delay (last grant 2 s
ago, minimum 3 s) are violated.  The violated-constraint waits are 10 s and
1 s; the source sleeps `max = 10`, not the claimed minimum `1`. -/
theorem wait_time_not_min_counterexample :
    wait_time (configFor ("linkedin"))
        { minute_requests := [50, 60, 70, 80, 98], hour_requests := [50, 60, 70, 80, 98],
          last_request_time := some 98 } 100 = 10 ∧
    claimed_min_wait_time (configFor ("linkedin"))
        { minute_requests := [50, 60, 70, 80, 98], hour_requests := [50, 60, 70, 80, 98],
          last_request_time := some 98 } 100 = 1 ∧
    wait_time (configFor ("linkedin"))
        { minute_requests := [50, 60, 70, 80, 98], hour_requests := [50, 60, 70, 80, 98],
          last_request_time := some 98 } 100 ≠
      claimed_min_wait_time (configFor ("linkedin"))
        { minute_requests := [50, 60, 70, 80, 98], hour_requests := [50, 60, 70, 80, 98],
          last_request_time := some 98 } 100 := by
  have hc : configFor ("linkedin") =
      { requests_per_minute := 5, requests_per_hour := 50, min_delay_seconds := 3 } := rfl
  have h1 : wait_time (configFor ("linkedin"))
      { minute_requests := [50, 60, 70, 80, 98], hour_requests := [50, 60, 70, 80, 98],
        last_request_time := some 98 } 100 = 10 := by
    rw [wait_time, hc]
    norm_num [wait_times, List.cons_ne_nil, max_def]
  have h2 : claimed_min_wait_time (configFor ("linkedin"))
      { minute_requests := [50, 60, 70, 80, 98], hour_requests := [50, 60, 70, 80, 98],
        last_request_time := some 98 } 100 = 1 := by
    rw [claimed_min_wait_time, hc]
    norm_num [wait_times, List.cons_ne_nil, min_def]
  refine ⟨h1, h2, ?_⟩
  rw [h1, h2]
  norm_num

/-- C5 (amended): whenever an acquire request is inadmissible, the suspension
duration computed by `RateLimiter.acquire` is the *maximum* of the
violated-constraint wait times (and the default `min_delay_seconds` when the
violated-constraint list is empty); re-evaluation from scratch after the sleep
is inherent in the loop (`Reaches` only grants through a fresh `admissible`
check). -/
theorem wait_time_is_max (config : RateLimitConfig) (tr : RequestTracker) (now : ℚ) :
    (wait_times config tr now = [] → wait_time config tr now = config.min_delay_seconds) ∧
    (∀ x ∈ wait_times config tr now, x ≤ wait_time config tr now) ∧
    (wait_times config tr now ≠ [] → wait_time config tr now ∈ wait_times config tr now) := by
  refine ⟨?_, ?_, ?_⟩
  · intro h
    rw [wait_time, h]
  · intro x hx
    rw [wait_time]
    cases hwt : wait_times config tr now with
    | nil => rw [hwt] at hx; cases hx
    | cons a l =>
        show x ≤ List.foldl max a l
        rw [hwt] at hx
        rcases List.mem_cons.mp hx with h | hx'
        · cases h
          exact (le_foldl_max l _).1
        · exact (le_foldl_max l a).2 x hx'
  · intro h
    rw [wait_time]
    cases hwt : wait_times config tr now with
    | nil => exact absurd hwt h
    | cons a l =>
        show List.foldl max a l ∈ a :: l
        rcases foldl_max_mem l a with he | he
        · rw [he]; exact List.mem_cons_self a l
        · exact List.mem_cons_of_mem _ he

/-- Witness for C5 (amended): in the concrete violated state above, both
computed candidate waits (10 s and 1 s) are below the chosen sleep, and the
sleep is one of the candidates. -/
theorem wait_time_is_max_witness :
    ((10 : ℚ) ≤ wait_time (configFor ("linkedin"))
        { minute_requests := [50, 60, 70, 80, 98], hour_requests := [50, 60, 70, 80, 98],
          last_request_time := some 98 } 100) ∧
    wait_time (configFor ("linkedin"))
        { minute_requests := [50, 60, 70, 80, 98], hour_requests := [50, 60, 70, 80, 98],
          last_request_time := some 98 } 100 ∈
      wait_times (configFor ("linkedin"))
        { minute_requests := [50, 60, 70, 80, 98], hour_requests := [50, 60, 70, 80, 98],
          last_request_time := some 98 } 100 := by
  have hc : configFor ("linkedin") =
      { requests_per_minute := 5, requests_per_hour := 50, min_delay_seconds := 3 } := rfl
  have hwt : wait_times (configFor ("linkedin"))
      { minute_requests := [50, 60, 70, 80, 98], hour_requests := [50, 60, 70, 80, 98],
        last_request_time := some 98 } 100 = [10, 1] := by
    rw [hc]
    norm_num [wait_times, List.cons_ne_nil]
  constructor
  · exact (wait_time_is_max (configFor ("linkedin")) _ 100).2.1 10
      (by rw [hwt]; exact List.mem_cons_self _ _)
  · exact (wait_time_is_max (configFor ("linkedin")) _ 100).2.2
      (by rw [hwt]; exact List.cons_ne_nil _ _)

/-- C8: a platform id outside the `JobSite` enumeration does not make
`RateLimiter.acquire` fail: the `configs.get` lookup yields the default
`RateLimitConfig()` and the whole acquire state machine behaves exactly as for
a known platform under that default policy. -/
theorem unknown_platform_uses_default (p : String) (hp : p ∉ supportedSites) :
    configFor p = {} ∧
    (∀ tr now, admissible (configFor p) tr now = admissible {} tr now) ∧
    (∀ t tr hist, Reaches (configFor p) t tr hist ↔ Reaches {} t tr hist) := by
  have hcfg : configFor p = {} := by
    simp only [supportedSites, List.mem_cons, List.mem_singleton, not_or] at hp
    obtain ⟨h1, h2, h3, h4, h5, _⟩ := hp
    simp [configFor, h1, h2, h3, h4, h5]
  refine ⟨hcfg, ?_, ?_⟩
  · intro tr now; rw [hcfg]
  · intro t tr hist; rw [hcfg]

/-- Witness for C8: the unknown platform id `"monster"` receives the default
policy and the same admission function as the default policy. -/
theorem unknown_platform_uses_default_witness :
    configFor ("monster") = {} ∧
    admissible (configFor ("monster")) {} 0 = admissible {} ({} : RequestTracker) 0 := by
  have h := unknown_platform_uses_default ("monster") (by decide)
  exact ⟨h.1, h.2.1 {} 0⟩

/-- Dataclass `RetryConfig`: retry configuration with exponential backoff.
Field defaults are the dataclass defaults. -/
structure RetryConfig where
  max_retries : Nat := 3
  initial_delay : ℚ := 1
  max_delay : ℚ := 60
  exponential_base : ℚ := 2
  jitter : Bool := true
  deriving DecidableEq, Repr

/-- Method `ExponentialBackoff.calculate_delay`: `delay = min(initial_delay *
exponential_base ** attempt, max_delay)`, plus the drawn jitter amount `j`
(the value of `random.uniform(0, delay * 0.5)`) when jitter is enabled. -/
def calculate_delay (config : RetryConfig) (attempt : Nat) (j : ℚ) : ℚ :=
  let delay := min (config.initial_delay * config.exponential_base ^ attempt) config.max_delay
  if config.jitter then delay + j else delay

/-- The pre-jitter backoff delay (the `min(...)` value `calculate_delay`
computes before the optional jitter term). -/
def base_delay (config : RetryConfig) (attempt : Nat) : ℚ :=
  min (config.initial_delay * config.exponential_base ^ attempt) config.max_delay

/-- Observable trace of one `retry_async` / `retry_sync` run: the value
returned or exception raised (`Except.error none` models the degenerate
`raise None` of a zero-iteration loop), how many times the operation was
invoked, and the inter-attempt sleeps in order. -/
structure RetryTrace (ε α : Type) where
  result : Except (Option ε) α
  calls : Nat
  delays : List ℚ

/-- The `for attempt in range(self.config.max_retries)` loop body of
`ExponentialBackoff.retry_async`, over the remaining attempt indices.
`op i` is the outcome of the `i`-th invocation of `func`; `jf i` is the jitter
drawn for the delay after attempt `i`; `last` is the current
`last_exception`. -/
def retry_async_loop {ε α : Type} (config : RetryConfig) (jf : Nat → ℚ)
    (op : Nat → Except ε α) : List Nat → Option ε → RetryTrace ε α
  | [], last => ⟨Except.error last, 0, []⟩
  | attempt :: rest, last =>
    match op attempt with
    | Except.ok v => ⟨Except.ok v, 1, []⟩
    | Except.error e =>
      let r := retry_async_loop config jf op rest (some e)
      if attempt < config.max_retries - 1 then
        ⟨r.result, r.calls + 1, calculate_delay config attempt (jf attempt) :: r.delays⟩
      else
        ⟨r.result, r.calls + 1, r.delays⟩

/-- Method `ExponentialBackoff.retry_async` (lines 238-276). -/
def retry_async {ε α : Type} (config : RetryConfig) (jf : Nat → ℚ)
    (op : Nat → Except ε α) : RetryTrace ε α :=
  retry_async_loop config jf op (List.range config.max_retries) none

/-- The `for attempt in range(self.config.max_retries)` loop body of
`ExponentialBackoff.retry_sync` — transcribed separately from lines 278-316
(`time.sleep` instead of `await asyncio.sleep`, otherwise the same text). -/
def retry_sync_loop {ε α : Type} (config : RetryConfig) (jf : Nat → ℚ)
    (op : Nat → Except ε α) : List Nat → Option ε → RetryTrace ε α
  | [], last => ⟨Except.error last, 0, []⟩
  | attempt :: rest, last =>
    match op attempt with
    | Except.ok v => ⟨Except.ok v, 1, []⟩
    | Except.error e =>
      let r := retry_sync_loop config jf op rest (some e)
      if attempt < config.max_retries - 1 then
        ⟨r.result, r.calls + 1, calculate_delay config attempt (jf attempt) :: r.delays⟩
      else
        ⟨r.result, r.calls + 1, r.delays⟩

/-- Method `ExponentialBackoff.retry_sync` (lines 278-316). -/
def retry_sync {ε α : Type} (config : RetryConfig) (jf : Nat → ℚ)
    (op : Nat → Except ε α) : RetryTrace ε α :=
  retry_sync_loop config jf op (List.range config.max_retries) none

/-- The loop invokes the operation at most once per remaining attempt index. -/
theorem retry_async_loop_calls_le {ε α : Type} (config : RetryConfig) (jf : Nat → ℚ)
    (op : Nat → Except ε α) :
    ∀ (l : List Nat) (last : Option ε),
      (retry_async_loop config jf op l last).calls ≤ l.length := by
  intro l
  induction l with
  | nil => intro last; simp [retry_async_loop]
  | cons a rest ih =>
      intro last
      cases hop : op a with
      | ok v =>
          have hone : (retry_async_loop config jf op (a :: rest) last).calls = 1 := by
            simp [retry_async_loop, hop]
          rw [hone, List.length_cons]
          omega
      | error e =>
          have h := ih (some e)
          have hcalls : (retry_async_loop config jf op (a :: rest) last).calls =
              (retry_async_loop config jf op rest (some e)).calls + 1 := by
            simp only [retry_async_loop, hop]
            split <;> rfl
          rw [hcalls, List.length_cons]
          omega

/-- The two loop transcriptions compute identical traces. -/
theorem retry_sync_loop_eq {ε α : Type} (config : RetryConfig) (jf : Nat → ℚ)
    (op : Nat → Except ε α) :
    ∀ (l : List Nat) (last : Option ε),
      retry_sync_loop config jf op l last = retry_async_loop config jf op l last := by
  intro l
  induction l with
  | nil => intro last; rfl
  | cons a rest ih =>
      intro last
      simp only [retry_sync_loop, retry_async_loop, ih]

/-- The last element of a non-empty list exists. -/
theorem getLast?_cons_isSome {γ : Type} (b : γ) (tl : List γ) :
    ∃ i, (b :: tl).getLast? = some i := by
  induction tl generalizing b with
  | nil => exact ⟨b, rfl⟩
  | cons c tl2 ih =>
      obtain ⟨i, hi⟩ := ih c
      exact ⟨i, by rw [List.getLast?_cons_cons]; exact hi⟩

/-- If every remaining attempt fails, the loop's outcome is the error of the
last remaining attempt (or the carried `last_exception` when none remain). -/
theorem retry_async_loop_all_fail {ε α : Type} (config : RetryConfig) (jf : Nat → ℚ)
    (op : Nat → Except ε α) (errs : Nat → ε) :
    ∀ (l : List Nat) (last : Option ε), (∀ i ∈ l, op i = Except.error (errs i)) →
      (retry_async_loop config jf op l last).result =
        Except.error (match l.getLast? with | none => last | some i => some (errs i)) := by
  intro l
  induction l with
  | nil => intro last _; rfl
  | cons a rest ih =>
      intro last hall
      have hop : op a = Except.error (errs a) := hall a (List.mem_cons_self a rest)
      have hres : (retry_async_loop config jf op (a :: rest) last).result =
          (retry_async_loop config jf op rest (some (errs a))).result := by
        simp only [retry_async_loop, hop]
        split <;> rfl
      rw [hres, ih (some (errs a)) (fun i hi => hall i (List.mem_cons_of_mem a hi))]
      cases rest with
      | nil => rfl
      | cons b tl =>
          obtain ⟨i, hi⟩ := getLast?_cons_isSome b tl
          rw [List.getLast?_cons_cons, hi]

/-- If every attempt before index `k` fails and attempt `k` succeeds, the loop
returns `k`'s value and stops after `k`'s invocation. -/
theorem retry_async_loop_first_success {ε α : Type} (config : RetryConfig) (jf : Nat → ℚ)
    (op : Nat → Except ε α) :
    ∀ (la : List Nat) (k : Nat) (lb : List Nat) (last : Option ε) (v : α),
      op k = Except.ok v → (∀ i ∈ la, ∃ e, op i = Except.error e) →
      (retry_async_loop config jf op (la ++ k :: lb) last).result = Except.ok v ∧
      (retry_async_loop config jf op (la ++ k :: lb) last).calls = la.length + 1 := by
  intro la
  induction la with
  | nil =>
      intro k lb last v hk _
      constructor <;> simp [retry_async_loop, hk]
  | cons a rest ih =>
      intro k lb last v hk hall
      obtain ⟨e, he⟩ := hall a (List.mem_cons_self a rest)
      have ihh := ih k lb (some e) v hk (fun i hi => hall i (List.mem_cons_of_mem a hi))
      have hres : (retry_async_loop config jf op ((a :: rest) ++ k :: lb) last).result =
          (retry_async_loop config jf op (rest ++ k :: lb) (some e)).result ∧
          (retry_async_loop config jf op ((a :: rest) ++ k :: lb) last).calls =
            (retry_async_loop config jf op (rest ++ k :: lb) (some e)).calls + 1 := by
        simp only [List.cons_append, retry_async_loop, he]
        constructor <;> (split <;> rfl)
      refine ⟨hres.1.trans ihh.1, ?_⟩
      rw [hres.2, ihh.2]
      rfl

/-- A range list decomposes at any interior index. -/
theorem range_decomp : ∀ (N k : Nat), k < N →
    ∃ rest, List.range N = List.range k ++ k :: rest := by
  intro N
  induction N with
  | zero => intro k hk; exact absurd hk (Nat.not_lt_zero k)
  | succ n ihn =>
      intro k hk
      rcases Nat.lt_succ_iff_lt_or_eq.mp hk with h | h
      · obtain ⟨rest, hr⟩ := ihn k h
        exact ⟨rest ++ [n], by rw [List.range_succ, hr, List.append_assoc, List.cons_append]⟩
      · subst h
        exact ⟨[], by rw [List.range_succ]⟩

/-- C4: both retry executors invoke the operation at most `max_retries` times;
if every invocation fails, the surfaced error is exactly the error of the
final (`max_retries`-th) attempt; and the first successful invocation's value
is returned immediately, after exactly that invocation. -/
theorem retry_bound {ε α : Type} (config : RetryConfig) (jf : Nat → ℚ)
    (op : Nat → Except ε α) :
    (retry_async config jf op).calls ≤ config.max_retries ∧
    (retry_sync config jf op).calls ≤ config.max_retries ∧
    (∀ errs : Nat → ε, 1 ≤ config.max_retries →
      (∀ i, i < config.max_retries → op i = Except.error (errs i)) →
      (retry_async config jf op).result =
          Except.error (some (errs (config.max_retries - 1))) ∧
      (retry_sync config jf op).result =
          Except.error (some (errs (config.max_retries - 1)))) ∧
    (∀ k v, k < config.max_retries → op k = Except.ok v →
      (∀ i, i < k → ∃ e, op i = Except.error e) →
      (retry_async config jf op).result = Except.ok v ∧
      (retry_async config jf op).calls = k + 1 ∧
      (retry_sync config jf op).result = Except.ok v ∧
      (retry_sync config jf op).calls = k + 1) := by
  have hsync : retry_sync config jf op = retry_async config jf op :=
    retry_sync_loop_eq config jf op (List.range config.max_retries) none
  refine ⟨?_, ?_, ?_, ?_⟩
  · have h := retry_async_loop_calls_le config jf op (List.range config.max_retries) none
    simpa [retry_async] using h
  · have h := retry_async_loop_calls_le config jf op (List.range config.max_retries) none
    rw [hsync]
    simpa [retry_async] using h
  · intro errs hN hfail
    have hmem : ∀ i ∈ List.range config.max_retries, op i = Except.error (errs i) :=
      fun i hi => hfail i (List.mem_range.mp hi)
    have h := retry_async_loop_all_fail config jf op errs
      (List.range config.max_retries) none hmem
    have hlast : (List.range config.max_retries).getLast? =
        some (config.max_retries - 1) := by
      have hsplit : config.max_retries = (config.max_retries - 1) + 1 := by omega
      rw [hsplit, List.range_succ, List.getLast?_concat]
      exact congrArg some (by omega)
    rw [hlast] at h
    exact ⟨h, by rw [hsync]; exact h⟩
  · intro k v hk hok hfail
    obtain ⟨rest, hr⟩ := range_decomp config.max_retries k hk
    have hmem : ∀ i ∈ List.range k, ∃ e, op i = Except.error e :=
      fun i hi => hfail i (List.mem_range.mp hi)
    have h := retry_async_loop_first_success config jf op (List.range k) k rest none v
      hok hmem
    rw [← hr] at h
    have hres : (retry_async config jf op).result = Except.ok v := h.1
    have hcalls : (retry_async config jf op).calls = k + 1 := by
      have := h.2
      rwa [List.length_range] at this
    exact ⟨hres, hcalls, by rw [hsync]; exact hres, by rw [hsync]; exact hcalls⟩

/-- Witness for C4: with the default config (`max_retries = 3`), an operation
failing on every attempt yields the third attempt's error after at most three
invocations, and an operation succeeding on its second attempt is invoked
exactly twice. -/
theorem retry_bound_witness :
    (retry_async {} (fun _ => 0)
        (fun i => (Except.error i : Except Nat Unit))).result = Except.error (some 2) ∧
    (retry_async {} (fun _ => 0)
        (fun i => (Except.error i : Except Nat Unit))).calls ≤ 3 ∧
    (retry_async {} (fun _ => 0)
        (fun i => if i = 0 then (Except.error 7 : Except Nat Nat) else Except.ok 5)).result =
      Except.ok 5 ∧
    (retry_async {} (fun _ => 0)
        (fun i => if i = 0 then (Except.error 7 : Except Nat Nat) else Except.ok 5)).calls =
      2 := by
  have h1 := (retry_bound ({} : RetryConfig) (fun _ => 0)
      (fun i => (Except.error i : Except Nat Unit))).2.2.1
    (fun i => i) (by norm_num) (fun i _ => rfl)
  have h2 := (retry_bound ({} : RetryConfig) (fun _ => 0)
      (fun i => (Except.error i : Except Nat Unit))).1
  have h3 := (retry_bound ({} : RetryConfig) (fun _ => 0)
      (fun i => if i = 0 then (Except.error 7 : Except Nat Nat) else Except.ok 5)).2.2.2
    1 5 (by norm_num) (by norm_num) ?hfail
  case hfail =>
    intro i hi
    have : i = 0 := by omega
    exact ⟨7, by simp [this]⟩
  exact ⟨h1.1, h2, h3.1, h3.2.1⟩

/-- C6: `calculate_delay` is `min(initial_delay * exponential_base ^ attempt,
max_delay)` when jitter is disabled; with jitter enabled it adds the drawn
amount `j` — which `random.uniform(0, 0.5 * delay)` keeps in
`[0, delay / 2]` — on top of that base value. -/
theorem calculate_delay_spec (config : RetryConfig) (attempt : Nat) (j : ℚ) :
    (config.jitter = false →
      calculate_delay config attempt j =
        min (config.initial_delay * config.exponential_base ^ attempt) config.max_delay) ∧
    (config.jitter = true →
      calculate_delay config attempt j =
        min (config.initial_delay * config.exponential_base ^ attempt) config.max_delay + j) ∧
    (config.jitter = true → 0 ≤ j →
      j ≤ min (config.initial_delay * config.exponential_base ^ attempt) config.max_delay / 2 →
      min (config.initial_delay * config.exponential_base ^ attempt) config.max_delay ≤
          calculate_delay config attempt j ∧
      calculate_delay config attempt j ≤
          3 / 2 * min (config.initial_delay * config.exponential_base ^ attempt)
            config.max_delay) := by
  refine ⟨?_, ?_, ?_⟩
  · intro h; simp [calculate_delay, h]
  · intro h; simp [calculate_delay, h]
  · intro h h0 hhalf
    constructor <;> simp [calculate_delay, h] <;> linarith

/-- Witness for C6: with the default config (jitter on, base 2, initial
delay 1) at attempt 2 and drawn jitter 1 the delay is the base value
`min(4, 60) = 4` plus 1. -/
theorem calculate_delay_spec_witness :
    calculate_delay {} 2 1 =
      min ((({} : RetryConfig)).initial_delay * (({} : RetryConfig)).exponential_base ^ 2)
        (({} : RetryConfig)).max_delay + 1 ∧
    calculate_delay {} 2 1 ≤
      3 / 2 * min ((({} : RetryConfig)).initial_delay *
        (({} : RetryConfig)).exponential_base ^ 2) (({} : RetryConfig)).max_delay := by
  have h := calculate_delay_spec ({} : RetryConfig) 2 1
  refine ⟨h.2.1 rfl, (h.2.2 rfl (by norm_num) (by norm_num [min_def])).2⟩

/-- C7: for a fixed config with `exponential_base > 1` and `initial_delay > 0`,
the pre-jitter delay is non-decreasing in the attempt number and bounded above
by `max_delay`; `calculate_delay` is that base value plus the jitter term. -/
theorem backoff_monotone (config : RetryConfig) (hb : 1 < config.exponential_base)
    (hi : 0 < config.initial_delay) :
    (∀ attempt j, calculate_delay config attempt j =
        if config.jitter then base_delay config attempt + j else base_delay config attempt) ∧
    (∀ n, base_delay config n ≤ base_delay config (n + 1)) ∧
    (∀ n, base_delay config n ≤ config.max_delay) := by
  refine ⟨fun attempt j => rfl, ?_, fun n => min_le_right _ _⟩
  intro n
  apply min_le_min _ le_rfl
  apply mul_le_mul_of_nonneg_left _ hi.le
  exact pow_le_pow_right₀ hb.le (Nat.le_succ n)

/-- Witness for C7: the default config (base 2 > 1, initial delay 1 > 0) has a
non-decreasing, `max_delay`-bounded base delay at attempt 3. -/
theorem backoff_monotone_witness :
    base_delay {} 3 ≤ base_delay {} 4 ∧
    base_delay {} 3 ≤ (({} : RetryConfig)).max_delay :=
  ⟨(backoff_monotone {} (by norm_num) (by norm_num)).2.1 3,
    (backoff_monotone {} (by norm_num) (by norm_num)).2.2 3⟩

/-- C10: `retry_sync` and `retry_async` are the same algorithm: on the same
sequence of per-attempt outcomes and jitter draws they produce identical
traces — the same result (or final error), the same number of invocations,
and the same inter-attempt delays computed through `calculate_delay`. -/
theorem retry_sync_eq_retry_async {ε α : Type} (config : RetryConfig) (jf : Nat → ℚ)
    (op : Nat → Except ε α) :
    retry_sync config jf op = retry_async config jf op :=
  retry_sync_loop_eq config jf op (List.range config.max_retries) none

/-- One record of the module-level mock fallback block (lines 650-667). -/
structure MockJob where
  title : String
  company : String
  location : String
  source : String
  posted_at : String
  url : String
  deriving DecidableEq, Repr

/-- The mock listings of the fallback block (lines 648-667): the data the
`[WARN] ... Fallback to mock data` branch would substitute. -/
def fallback_jobs : List MockJob :=
  [{ title := "Scrum Master", company := "TechCorp", location := "Remote",
     source := "MockDB", posted_at := "2025-10-20",
     url := "https://techcorp.com/jobs/scrum-master" },
   { title := "Agile Coach", company := "Velocity Labs", location := "New York, NY",
     source := "MockDB", posted_at := "2025-10-19",
     url := "https://velocitylabs.com/jobs/agile-coach" }]

/-- The `_scrape` closure of `JobScraper.scrape_jobs_async` (lines 406-433):
run the jobspy fetch (whose `i`-th invocation outcome is `fetch i`: an
exception, `None`, or a DataFrame of rows); return the DataFrame when it is
non-`None` and non-empty, else return `None`. -/
def scrapeOp {α : Type} (fetch : Nat → Except String (Option (List α))) (i : Nat) :
    Except String (Option (List α)) :=
  match fetch i with
  | Except.error e => Except.error e
  | Except.ok jobs_df =>
      match jobs_df with
      | some rows => if rows.isEmpty then Except.ok none else Except.ok (some rows)
      | none => Except.ok none

/-- Method `JobScraper.scrape_jobs_async` (lines 374-439): acquire the rate limiter
(no effect on the returned value), run `_scrape` through
`self.backoff.retry_async`, and catch any exception into `None`. -/
def scrape_jobs_async {α : Type} (config : RetryConfig) (jf : Nat → ℚ)
    (fetch : Nat → Except String (Option (List α))) : Option (List α) :=
  match (retry_async config jf (scrapeOp fetch)).result with
  | Except.ok v => v
  | Except.error _ => none

/-- C3: evaluating the single-platform pipeline at the claim's failing inputs.
A fetcher that raises on every attempt, one that always returns an empty
DataFrame, and one that always returns `None` all make `scrape_jobs_async`
return `None` — no data at all — while the mock fallback data of the dead
module-level block (which would have been non-empty) is never substituted. -/
theorem scrape_jobs_async_no_fallback :
    scrape_jobs_async {} (fun _ => 0)
        (fun _ => (Except.error ("network down") : Except String (Option (List MockJob)))) =
      none ∧
    scrape_jobs_async {} (fun _ => 0)
        (fun _ => (Except.ok (some ([] : List MockJob)))) = none ∧
    scrape_jobs_async {} (fun _ => 0)
        (fun _ => (Except.ok (none : Option (List MockJob)))) = none ∧
    fallback_jobs ≠ [] :=
  ⟨rfl, rfl, rfl, List.cons_ne_nil _ _⟩

/-- Python dict assignment `output[site] = result`: overwrite the binding if
the key is present, otherwise append it. -/
def dictInsert {α : Type} (m : List (String × α)) (k : String) (v : α) :
    List (String × α) :=
  if m.any (fun p => p.1 = k) then m.map (fun p => if p.1 = k then (k, v) else p)
  else m ++ [(k, v)]

/-- The aggregation loop of `JobScraper.scrape_multiple_sites_async` (lines
515-521): walk the `zip(sites, results)` pairs; an exception result is only
logged and a `None` result is skipped — only non-`None`, non-exception
results are written into the output dict. -/
def buildOutput {α : Type} : List (String × Except String (Option α)) →
    List (String × α) → List (String × α)
  | [], output => output
  | (site, r) :: rest, output =>
    match r with
    | Except.error _ => buildOutput rest output
    | Except.ok none => buildOutput rest output
    | Except.ok (some df) => buildOutput rest (dictInsert output site df)

/-- Method `JobScraper.scrape_multiple_sites_async` (lines 478-522): one
`scrape_jobs_async` pipeline per requested site, gathered in request order
(`f s` is site `s`'s pipeline outcome: an exception captured by
`asyncio.gather(..., return_exceptions=True)` or the pipeline's `Option`
value), then aggregated into the output dict. -/
def scrape_multiple_sites_async {α : Type} (f : String → Except String (Option α))
    (sites : List String) : List (String × α) :=
  buildOutput (sites.map (fun s => (s, f s))) []

/-- Whether a pipeline result is written into the multi-site output dict. -/
def keepResult {α : Type} : Except String (Option α) → Bool
  | Except.ok (some _) => true
  | Except.ok none => false
  | Except.error _ => false

/-- C1 (counterexample): with a single requested platform whose pipeline fails
(and likewise one whose pipeline yields no data), the output mapping is empty
— the requested platform is silently omitted, not represented by a failure
outcome. -/
theorem scrape_multiple_sites_omits_counterexample :
    scrape_multiple_sites_async
        (fun _ => (Except.error ("unreachable") : Except String (Option (List MockJob))))
        ["indeed"] = [] ∧
    scrape_multiple_sites_async
        (fun _ => (Except.ok (none : Option (List MockJob)))) ["indeed"] = [] ∧
    (["indeed"] : List String) ≠ [] :=
  ⟨rfl, rfl, List.cons_ne_nil _ _⟩

/-- Inserting a key absent from the dict appends it. -/
theorem dictInsert_fresh {α : Type} {m : List (String × α)} {k : String} {v : α}
    (h : ∀ p ∈ m, p.1 ≠ k) : dictInsert m k v = m ++ [(k, v)] := by
  have hany : m.any (fun p => decide (p.1 = k)) = false := by
    rw [List.any_eq_false]
    intro p hp
    simpa using h p hp
  simp [dictInsert, hany]

/-- Keys of the aggregation loop output: the accumulator's keys followed by
the keys of the kept pairs, provided the incoming keys are distinct and fresh
for the accumulator. -/
theorem buildOutput_keys {α : Type} :
    ∀ (pairs : List (String × Except String (Option α))) (output : List (String × α)),
    (pairs.map Prod.fst).Nodup →
    (∀ k ∈ pairs.map Prod.fst, ∀ p ∈ output, p.1 ≠ k) →
    (buildOutput pairs output).map Prod.fst =
      output.map Prod.fst ++ (pairs.filter (fun p => keepResult p.2)).map Prod.fst := by
  intro pairs
  induction pairs with
  | nil => intro output _ _; simp [buildOutput]
  | cons pr rest ih =>
      obtain ⟨site, r⟩ := pr
      intro output hnd hfresh
      rw [List.map_cons] at hnd
      have hnotin : site ∉ rest.map Prod.fst := (List.nodup_cons.mp hnd).1
      have hndr : (rest.map Prod.fst).Nodup := (List.nodup_cons.mp hnd).2
      have hfreshr : ∀ k ∈ rest.map Prod.fst, ∀ p ∈ output, p.1 ≠ k :=
        fun k hk p hp => hfresh k (List.mem_cons_of_mem _ hk) p hp
      cases r with
      | error e =>
          simp only [buildOutput]
          rw [ih output hndr hfreshr]
          simp [keepResult, List.filter_cons]
      | ok o =>
          cases o with
          | none =>
              simp only [buildOutput]
              rw [ih output hndr hfreshr]
              simp [keepResult, List.filter_cons]
          | some df =>
              simp only [buildOutput]
              have hfr : ∀ p ∈ output, p.1 ≠ site :=
                fun p hp => hfresh site (List.mem_cons_self _ _) p hp
              rw [dictInsert_fresh hfr, ih (output ++ [(site, df)]) hndr ?fresh2]
              · simp [keepResult, List.filter_cons, List.map_append, List.append_assoc]
              case fresh2 =>
                intro k hk p hp
                rcases List.mem_append.mp hp with hp1 | hp2
                · exact hfreshr k hk p hp1
                · have hpe : p = (site, df) := by simpa using hp2
                  rw [hpe]
                  intro hcon
                  have hsk : site = k := hcon
                  rw [hsk] at hnotin
                  exact hnotin hk

/-- Filtering the site-result pairs and projecting keys is filtering the
sites. -/
theorem map_fst_filter_keep {α : Type} (f : String → Except String (Option α)) :
    ∀ sites : List String,
    ((sites.map (fun s => (s, f s))).filter (fun p => keepResult p.2)).map Prod.fst =
      sites.filter (fun s => keepResult (f s)) := by
  intro sites
  induction sites with
  | nil => rfl
  | cons a l ih =>
      simp only [List.map_cons, List.filter_cons]
      by_cases h : keepResult (f a) = true
      · simp [h, ih]
      · simp [h, ih]

/-- C1 (amended): the output mapping of `scrape_multiple_sites_async` contains
exactly one entry per requested platform whose pipeline returned a
non-exception, non-`None` result, in request order; a platform whose pipeline
failed or returned nothing is omitted from the mapping. -/
theorem scrape_multiple_sites_keys {α : Type} (f : String → Except String (Option α))
    (sites : List String) (hnd : sites.Nodup) :
    (scrape_multiple_sites_async f sites).map Prod.fst =
      sites.filter (fun s => keepResult (f s)) := by
  unfold scrape_multiple_sites_async
  have hmap : (sites.map (fun s => (s, f s))).map Prod.fst = sites := by
    rw [List.map_map]
    exact List.map_id sites
  rw [buildOutput_keys (sites.map (fun s => (s, f s))) []
    (by rw [hmap]; exact hnd) (by intro k _ p hp; cases hp)]
  rw [List.map_nil, List.nil_append]
  exact map_fst_filter_keep f sites

/-- Witness for C1 (amended): two distinct requested platforms, one pipeline
succeeding with data and one failing — only the succeeding platform appears
in the output. -/
theorem scrape_multiple_sites_keys_witness :
    (["indeed", "linkedin"] : List String).Nodup ∧
    (scrape_multiple_sites_async
        (fun s => if s = "indeed"
          then (Except.ok (some [(1 : Nat)]) : Except String (Option (List Nat)))
          else Except.error ("down"))
        ["indeed", "linkedin"]).map Prod.fst = ["indeed"] := by
  refine ⟨by decide, ?_⟩
  rw [scrape_multiple_sites_keys
      (fun s => if s = "indeed"
        then (Except.ok (some [(1 : Nat)]) : Except String (Option (List Nat)))
        else Except.error ("down"))
      ["indeed", "linkedin"] (by decide)]
  rfl

/-- One observable step of `JobScraper.batch_scrape_async` (lines 558-599):
launching one concurrent batch, or the fixed `await asyncio.sleep(2.0)` pacing
delay between batches. -/
inductive BatchEvent (α : Type) where
  | run (batch : List α)
  | pause (seconds : ℚ)
  deriving DecidableEq, Repr

/-- The event sequence of `batch_scrape_async`: the loop
`for i in range(0, len(queries), batch_size)` takes `queries[i:i+batch_size]`
as one batch and sleeps 2.0 s afterwards exactly when
`i + batch_size < len(queries)`.  `batch_size = 0` makes Python's `range`
raise before any batch; it is modelled as the empty event sequence and
excluded by the claims (`k ≥ 1`). -/
def batch_scrape_events {α : Type} : List α → Nat → List (BatchEvent α)
  | _, 0 => []
  | [], _ + 1 => []
  | q :: qs, k + 1 =>
    if ((q :: qs).drop (k + 1)).isEmpty then [BatchEvent.run ((q :: qs).take (k + 1))]
    else BatchEvent.run ((q :: qs).take (k + 1)) :: BatchEvent.pause 2 ::
      batch_scrape_events ((q :: qs).drop (k + 1)) (k + 1)
  termination_by l k => l.length
  decreasing_by simp [List.length_drop]; omega

/-- Recognize a pacing delay event. -/
def isPause {α : Type} : BatchEvent α → Bool
  | BatchEvent.pause _ => true
  | BatchEvent.run _ => false

/-- Extract a batch from an event. -/
def runBatch? {α : Type} : BatchEvent α → Option (List α)
  | BatchEvent.run b => some b
  | BatchEvent.pause _ => none

/-- The recursion equation of `batch_scrape_events` for a non-empty queue. -/
theorem batch_scrape_events_eq {α : Type} (queries : List α) (k : Nat)
    (hq : queries ≠ []) (hk : 1 ≤ k) :
    batch_scrape_events queries k =
      if (queries.drop k).isEmpty then [BatchEvent.run (queries.take k)]
      else BatchEvent.run (queries.take k) :: BatchEvent.pause 2 ::
        batch_scrape_events (queries.drop k) k := by
  cases queries with
  | nil => exact absurd rfl hq
  | cons q qs =>
      cases k with
      | zero => omega
      | succ k2 => rw [batch_scrape_events]

/-- An empty queue produces no events. -/
theorem batch_scrape_events_nil {α : Type} (k : Nat) :
    batch_scrape_events ([] : List α) k = [] := by
  cases k with
  | zero => rw [batch_scrape_events]
  | succ k2 => rw [batch_scrape_events]

/-- Ceiling-division step: removing one full batch removes exactly one pacing
delay from the count. -/
theorem ceil_sub_step (n k : Nat) (hk : 1 ≤ k) (hkn : k < n) :
    (n - k + k - 1) / k - 1 + 1 = (n + k - 1) / k - 1 := by
  have hk0 : 0 < k := by omega
  have e1 : n - k + k - 1 = n - 1 - k + k := by omega
  have e2 : n + k - 1 = n - 1 - k + k + k := by omega
  rw [e1, e2, Nat.add_div_right _ hk0, Nat.add_div_right _ hk0, Nat.add_div_right _ hk0]
  rfl

/-- A single batch (`1 ≤ n ≤ k`) has a zero pacing-delay count. -/
theorem ceil_single (n k : Nat) (hk : 1 ≤ k) (h1 : 1 ≤ n) (h2 : n ≤ k) :
    (n + k - 1) / k - 1 = 0 := by
  have e : n + k - 1 = n - 1 + k := by omega
  rw [e, Nat.add_div_right _ (by omega : 0 < k), Nat.div_eq_of_lt (by omega)]

/-- C9 (generalized over a fuel bound for the induction): the batches
concatenate to the query list in order, each batch has at most `k` queries,
the pacing-delay count is `ceil(n / k) - 1`, and the last event is never a
pacing delay. -/
theorem batch_pacing_aux {α : Type} (k : Nat) (hk : 1 ≤ k) :
    ∀ (n : Nat) (queries : List α), queries.length ≤ n →
    ((batch_scrape_events queries k).filterMap runBatch?).flatten = queries ∧
    (∀ b, BatchEvent.run b ∈ batch_scrape_events queries k → b.length ≤ k) ∧
    (batch_scrape_events queries k).countP isPause = (queries.length + k - 1) / k - 1 ∧
    (∀ d, (batch_scrape_events queries k).getLast? ≠ some (BatchEvent.pause d)) := by
  intro n
  induction n with
  | zero =>
      intro queries hlen
      have hq : queries = [] := by
        cases queries with
        | nil => rfl
        | cons a l => simp at hlen
      subst hq
      rw [batch_scrape_events_nil]
      refine ⟨rfl, ?_, ?_, ?_⟩
      · intro b hb; cases hb
      · rw [List.countP_nil, List.length_nil, Nat.zero_add, Nat.div_eq_of_lt (by omega)]
      · intro d h; cases h
  | succ m ihm =>
      intro queries hlen
      by_cases hq : queries = []
      · subst hq
        rw [batch_scrape_events_nil]
        refine ⟨rfl, ?_, ?_, ?_⟩
        · intro b hb; cases hb
        · rw [List.countP_nil, List.length_nil, Nat.zero_add, Nat.div_eq_of_lt (by omega)]
        · intro d h; cases h
      · have hpos : 1 ≤ queries.length := List.length_pos.mpr hq
        rw [batch_scrape_events_eq queries k hq hk]
        by_cases hrest : queries.drop k = []
        · have hle : queries.length ≤ k := List.drop_eq_nil_iff.mp hrest
          have htake : queries.take k = queries := by
            conv_rhs => rw [← List.take_append_drop k queries]
            rw [hrest, List.append_nil]
          rw [if_pos (show ((queries.drop k).isEmpty = true) by rw [hrest]; rfl)]
          refine ⟨?_, ?_, ?_, ?_⟩
          · simp [runBatch?, htake]
          · intro b hb
            have hbt : b = queries.take k := by
              rcases List.mem_singleton.mp hb with h
              exact (BatchEvent.run.injEq _ _).mp h.symm |>.symm
            rw [hbt, List.length_take]
            exact min_le_left _ _
          · rw [ceil_single queries.length k hk hpos hle]
            simp [isPause]
          · intro d h
            simp [List.getLast?] at h
        · have hgt : k < queries.length := by
            rcases Nat.lt_or_ge k queries.length with h | h
            · exact h
            · exact absurd (List.drop_eq_nil_iff.mpr h) hrest
          have hlenr : (queries.drop k).length ≤ m := by
            rw [List.length_drop]
            omega
          obtain ⟨ih1, ih2, ih3, ih4⟩ := ihm (queries.drop k) hlenr
          rw [if_neg (show ¬((queries.drop k).isEmpty = true) by
            simp only [List.isEmpty_iff]; exact hrest)]
          refine ⟨?_, ?_, ?_, ?_⟩
          · simp only [List.filterMap_cons, runBatch?]
            rw [List.flatten_cons, ih1, List.take_append_drop]
          · intro b hb
            rcases List.mem_cons.mp hb with h | h
            · have hbt : b = queries.take k := by
                exact ((BatchEvent.run.injEq _ _).mp h.symm).symm
              rw [hbt, List.length_take]
              exact min_le_left _ _
            · rcases List.mem_cons.mp h with h2 | h2
              · cases h2
              · exact ih2 b h2
          · simp only [List.countP_cons, isPause]
            rw [ih3, List.length_drop]
            have := ceil_sub_step queries.length k hk hgt
            simpa using this
          · intro d
            have hne : batch_scrape_events (queries.drop k) k ≠ [] := by
              rw [batch_scrape_events_eq (queries.drop k) k hrest hk]
              split
              · exact List.cons_ne_nil _ _
              · exact List.cons_ne_nil _ _
            cases hev : batch_scrape_events (queries.drop k) k with
            | nil => exact absurd hev hne
            | cons e evs =>
                rw [List.getLast?_cons_cons, List.getLast?_cons_cons]
                rw [hev] at ih4
                exact ih4 d

/-- C9: for every query sequence and every batch size `k ≥ 1`,
`batch_scrape_async` partitions the queries into consecutive batches of at
most `k`, runs exactly `ceil(n / k) - 1` inter-batch pacing delays, and never
delays after the final batch. -/
theorem batch_pacing {α : Type} (queries : List α) (k : Nat) (hk : 1 ≤ k) :
    ((batch_scrape_events queries k).filterMap runBatch?).flatten = queries ∧
    (∀ b, BatchEvent.run b ∈ batch_scrape_events queries k → b.length ≤ k) ∧
    (batch_scrape_events queries k).countP isPause = (queries.length + k - 1) / k - 1 ∧
    (∀ d, (batch_scrape_events queries k).getLast? ≠ some (BatchEvent.pause d)) :=
  batch_pacing_aux k hk queries.length queries le_rfl

/-- Witness for C9: five queries at batch size 2 yield three batches in order
and exactly `ceil(5 / 2) - 1 = 2` pacing delays. -/
theorem batch_pacing_witness :
    ((batch_scrape_events [1, 2, 3, 4, 5] 2).filterMap runBatch?).flatten =
      [1, 2, 3, 4, 5] ∧
    (batch_scrape_events [1, 2, 3, 4, 5] 2).countP isPause = (5 + 2 - 1) / 2 - 1 := by
  have h := batch_pacing [1, 2, 3, 4, 5] 2 (by norm_num)
  exact ⟨h.1, h.2.2.1⟩

end Scraper
